import Mathlib

/-
Shallow embedding of the Miner subsystem of openether/ethcore
(package ethminer, src/eth/bind.go lines 208-424).

Hashes and addresses are modelled as natural numbers; byte-slice equality
(bytes.Compare == 0) becomes equality of those numbers.  The external
collaborators (chain manager, state manager, transaction pool, PoW engine)
enter as parameters: the chain view as the current head's hash and the
current head's parent hash, the state processor as a function from the
ordered transaction list to its result record, the PoW search as a function
from the template to an optional nonce.
-/

namespace EthMiner

/-- Transaction: hash, sender address and account nonce, as consumed by the
miner (chain.Transaction in the source). -/
structure Tx where
  hash : Nat
  sender : Nat
  nonce : Nat
deriving DecidableEq

/-- Block as seen by the miner listener: its own hash, its parent hash
(block.PrevHash) and its transaction list (chain.Block in the source). -/
structure Block where
  hash : Nat
  prevHash : Nat
  txs : List Tx
deriving DecidableEq

/-- Candidate block template built by mineNewBlock: coinbase, parent
reference, uncle list, transaction list, receipts and the nonce that is
only set after a successful search (chain.Block owned as miner.block). -/
structure BlockTemplate where
  coinbase : Nat
  parentHash : Nat
  uncles : List Block
  txs : List Tx
  receipts : List Nat
  nonce : Option Nat
deriving DecidableEq

/-- Miner state: working transaction set (miner.txs), uncle candidates
(miner.uncles), the current template (miner.block), the number of
mineNewBlock goroutines currently running (each startMining spawns one),
and whether the event subscription is live. -/
structure MState where
  txs : List Tx
  uncles : List Block
  blk : Option BlockTemplate
  sessions : Nat
  subscribed : Bool
deriving DecidableEq

/-- Lifecycle notifications posted on the event mux (Event{Started,...} and
Event{Stopped,...} in the source). -/
inductive Note where
  | started
  | stopped
deriving DecidableEq

/-- Atomic actions performed by the listener while handling one event.
cancel is stopMining closing powQuitChan; waitAck would be a join on
powDone (the source has this line commented out); setTxs and addUncle are
the working-set mutations; undo is miner.block.Undo(); start is
startMining spawning a mineNewBlock goroutine. -/
inductive MAct where
  | cancel
  | waitAck
  | setTxs (l : List Tx)
  | addUncle (b : Block)
  | undo
  | start
deriving DecidableEq

/-- Fresh template as produced by ChainManager().NewBlock(coinbase): empty
transaction and uncle lists, no nonce, parent is the current head. -/
def newTemplate (coinbase parentHash : Nat) : BlockTemplate :=
  { coinbase := coinbase
    parentHash := parentHash
    uncles := []
    txs := []
    receipts := []
    nonce := none }

/-- Inner scan of the NewBlockEvent head branch: tx is already included in
block when some transaction of the block has an equal hash (the nested
loop over block.Transactions() at lines 310-314). -/
def txKnownIn (tx : Tx) (b : Block) : Bool :=
  b.txs.any fun o => o.hash == tx.hash

/-- The newtxs rebuild of lines 307-319: keep exactly the pool transactions
whose hash does not occur in the new head block. -/
def filterNewTxs (txs : List Tx) (b : Block) : List Tx :=
  txs.filter fun tx => !(txKnownIn tx b)

/-- Duplicate test of the TxPreEvent branch: the loop at lines 332-338 sets
found when some pooled transaction hash equals the incoming hash. -/
def txFound (txs : List Tx) (tx : Tx) : Bool :=
  txs.any fun c => c.hash == tx.hash

/-- Actions emitted by the TxPreEvent scan loop (lines 332-338): for every
pooled transaction inspected before the first hash match, the loop body
calls miner.startMining(); it breaks at the first match. -/
def txPreScan : List Tx → Tx → List MAct
  | [], _ => []
  | c :: rest, tx =>
    if c.hash == tx.hash then [] else MAct.start :: txPreScan rest tx

/-- Action trace of the chain.TxPreEvent case of Miner.listener
(lines 328-344): stopMining (close of powQuitChan, with no join on
powDone), the scan loop with its per-iteration startMining calls, then,
when the hash was not found, block.Undo() and the append of the new
transaction. -/
def txPreTrace (txs : List Tx) (tx : Tx) : List MAct :=
  MAct.cancel ::
    (txPreScan txs tx ++
      (if txFound txs tx then [] else [MAct.undo, MAct.setTxs (txs ++ [tx])]))

/-- Action trace of the chain.NewBlockEvent case of Miner.listener
(lines 297-326): stopMining, then either the head-block transaction
filter (when the event block is the current canonical head), or an uncle
append (when its parent equals the current head's parent), or nothing,
followed by startMining. -/
def newBlockTrace (headHash headParent : Nat) (txs : List Tx) (b : Block) :
    List MAct :=
  MAct.cancel ::
    ((if b.hash = headHash then [MAct.setTxs (filterNewTxs txs b)]
      else if b.prevHash = headParent then [MAct.addUncle b] else []) ++
      [MAct.start])

/-- State effect of one action.  cancel is modelled generously for the
source: closing the quit channel instantly terminates every running
session (the real code does not even wait for that). startMining spawns
one more mineNewBlock goroutine. -/
def applyAct (s : MState) : MAct → MState
  | MAct.cancel => { s with sessions := 0 }
  | MAct.waitAck => s
  | MAct.setTxs l => { s with txs := l }
  | MAct.addUncle b => { s with uncles := s.uncles ++ [b] }
  | MAct.undo => s
  | MAct.start => { s with sessions := s.sessions + 1 }

/-- Run a list of actions from a state, left to right. -/
def runActs (s : MState) (l : List MAct) : MState :=
  l.foldl applyAct s

/-- State transition of the miner on a TxPreEvent. -/
def handleTxPre (s : MState) (tx : Tx) : MState :=
  runActs s (txPreTrace s.txs tx)

/-- State transition of the miner on a NewBlockEvent, given the chain
manager's current block hash and that block's parent hash. -/
def handleNewBlock (headHash headParent : Nat) (s : MState) (b : Block) :
    MState :=
  runActs s (newBlockTrace headHash headParent s.txs b)

/-- Recognizer for the startMining action. -/
def isStart : MAct → Bool
  | MAct.start => true
  | _ => false

/-- Number of startMining calls in a trace. -/
def countStarts (l : List MAct) : Nat :=
  (l.filter isStart).length

/-- Miner.Start (lines 267-282): seed the pool from TxPool().Flush(), build
a fresh template, subscribe, spawn the listener whose first statement is
startMining, and post the started notification. -/
def minerStart (flush : List Tx) (coinbase parentHash : Nat) (s : MState) :
    MState × Note :=
  ({ s with
      txs := flush
      blk := some (newTemplate coinbase parentHash)
      subscribed := true
      sessions := s.sessions + 1 }, Note.started)

/-- Miner.Stop (lines 284-288): unsubscribe from the event mux and post the
stopped notification.  Nothing touches powQuitChan or the running
mineNewBlock goroutines. -/
def minerStop (s : MState) : MState × Note :=
  ({ s with subscribed := false }, Note.stopped)

/-- Comparator of sort.Sort(chain.TxByNonce«miner.txs») at line 381: the key
is the account nonce alone. This is the insert of an insertion sort with
that comparator; the concrete algorithm only matters up to producing some
list sorted by nonce, which is all the unstable sort.Sort guarantees. -/
def insertByNonce (x : Tx) : List Tx → List Tx
  | [] => [x]
  | h :: t => if h.nonce ≤ x.nonce then h :: insertByNonce x t else x :: h :: t

/-- Nonce-only ordering applied to the working set before the state
processor runs (line 381). -/
def sortByNonce : List Tx → List Tx
  | [] => []
  | h :: t => insertByNonce h (sortByNonce t)

/-- Ordered transaction list that mineNewBlock hands to
StateManager.ProcessTransactions (lines 381 and 388). -/
def roundProcessorInput (s : MState) : List Tx :=
  sortByNonce s.txs

/-- Result record of StateManager.ProcessTransactions (line 388): receipts
and accepted transactions, the unhandled (deferred) remainder, the
erroneous (permanently failed) remainder, and whether an error was
reported. -/
structure ProcOut where
  receipts : List Nat
  accepted : List Tx
  unhandled : List Tx
  erroneous : List Tx
  err : Bool
deriving DecidableEq

/-- Output of the pre-search phase of a round: the template handed to the
PoW search, the miner state at the moment the search starts, and the set
removed from the transaction pool. -/
structure RoundPre where
  blk : BlockTemplate
  state : MState
  poolRemoved : List Tx
deriving DecidableEq

/-- Pre-search phase of Miner.mineNewBlock (lines 370-403): build a fresh
block for the coinbase on the current head, set the uncle candidates,
sort the working set by nonce, run the state processor on it (its error
is only logged), remove the erroneous set from the transaction pool,
overwrite the working set with accepted ++ unhandled, and put the
accepted transactions and receipts into the template.  The nonce stays
unset until the search succeeds. -/
def mineNewBlockPre (coinbase headHash : Nat) (s : MState)
    (proc : List Tx → ProcOut) : RoundPre :=
  let po := proc (roundProcessorInput s)
  let blk : BlockTemplate :=
    { coinbase := coinbase
      parentHash := headHash
      uncles := s.uncles
      txs := po.accepted
      receipts := po.receipts
      nonce := none }
  { blk := blk
    state := { s with txs := po.accepted ++ po.unhandled, blk := some blk }
    poolRemoved := po.erroneous }

/-- Outcome of one full mineNewBlock invocation: the miner state when the
goroutine returns, the set removed from the pool, and the block that was
broadcast and posted as a NewBlockEvent, when there was one. -/
structure RoundOut where
  state : MState
  poolRemoved : List Tx
  broadcasted : Option BlockTemplate
deriving DecidableEq

/-- Full Miner.mineNewBlock (lines 370-424).  The search is a parameter
(pow.Search at line 406); returning none models cancellation through the
quit channel.  On a found nonce the template gets the nonce, then
StateManager.Process validates it (processOk); on success the block is
broadcast and posted and the working set is refreshed from
TxPool().CurrentTransactions() (poolSnapshot); in both branches
startMining spawns the next session.  On cancellation the goroutine just
returns: no restart and no rollback of the earlier mutations. -/
def mineNewBlock (coinbase headHash : Nat) (s : MState)
    (proc : List Tx → ProcOut) (search : BlockTemplate → Option Nat)
    (processOk : Bool) (poolSnapshot : List Tx) : RoundOut :=
  let r := mineNewBlockPre coinbase headHash s proc
  match search r.blk with
  | none =>
    { state := r.state, poolRemoved := r.poolRemoved, broadcasted := none }
  | some n =>
    let mined := { r.blk with nonce := some n }
    if processOk then
      { state := { r.state with
          txs := poolSnapshot
          blk := some mined
          sessions := r.state.sessions + 1 }
        poolRemoved := r.poolRemoved
        broadcasted := some mined }
    else
      { state := { r.state with
          blk := some mined
          sessions := r.state.sessions + 1 }
        poolRemoved := r.poolRemoved
        broadcasted := none }

/-- Strict (sender, nonce) lexicographic order.  Modelled from the spec:
the ordering key the specification prescribes for the round, namely a
stable sort by (sender, nonce) ascending; it is not implemented in the
source, which sorts by nonce alone. -/
def specLtSenderNonce (a b : Tx) : Bool :=
  a.sender < b.sender || (a.sender == b.sender && a.nonce < b.nonce)

/-- Stable insertion step for the specification's ordering: an element is
placed before the first element strictly greater than it, so elements
with equal keys keep their arrival order. Modelled from the spec. -/
def specInsert (x : Tx) : List Tx → List Tx
  | [] => [x]
  | h :: t => if specLtSenderNonce h x then h :: specInsert x t else x :: h :: t

/-- Stable sort by (sender, nonce) with ties broken by arrival order.
Modelled from the spec; compared against the source's sortByNonce. -/
def specSortSenderNonce : List Tx → List Tx
  | [] => []
  | h :: t => specInsert h (specSortSenderNonce t)

/-- Initial miner state: empty sets, no template, no running session, not
subscribed. -/
def initState : MState :=
  { txs := [], uncles := [], blk := none, sessions := 0, subscribed := false }

/-- Concrete transaction with hash 1, sender 1, nonce 1. -/
def T1 : Tx := { hash := 1, sender := 1, nonce := 1 }

/-- Concrete transaction with hash 2, sender 1, nonce 2. -/
def T2 : Tx := { hash := 2, sender := 1, nonce := 2 }

/-- Concrete transaction with hash 3, sender 2, nonce 1. -/
def T3 : Tx := { hash := 3, sender := 2, nonce := 1 }

/-- Canonical head block used in concrete instances: hash 7, parent 5,
containing T1. -/
def BHead : Block := { hash := 7, prevHash := 5, txs := [T1] }

/-- Sibling candidate used in concrete instances: hash 9, same parent 5 as
the head, no transactions. -/
def U : Block := { hash := 9, prevHash := 5, txs := [] }

/-- Running miner holding T1 and T2 with one active session. -/
def SW : MState :=
  { txs := [T1, T2], uncles := [], blk := none, sessions := 1, subscribed := true }

/-- Running miner that already has U as uncle candidate. -/
def SU : MState :=
  { txs := [], uncles := [U], blk := none, sessions := 1, subscribed := true }

/-- Running miner with an empty working set and one active session. -/
def SRun : MState :=
  { txs := [], uncles := [], blk := none, sessions := 1, subscribed := true }

/-- Running miner holding T2 (sender 1, nonce 2) then T3 (sender 2,
nonce 1) in arrival order. -/
def S8 : MState :=
  { txs := [T2, T3], uncles := [], blk := none, sessions := 1, subscribed := true }

/-- Membership in the rebuilt working set after a new canonical head: a
transaction survives the filter exactly when it was pooled and its hash
is not among the head block's transaction hashes. -/
lemma mem_filterNewTxs (txs : List Tx) (b : Block) (t : Tx) :
    t ∈ filterNewTxs txs b ↔ t ∈ txs ∧ t.hash ∉ b.txs.map Tx.hash := by
  simp [filterNewTxs, txKnownIn, List.mem_filter, List.mem_map]

/-- Working set after a NewBlockEvent whose block is the canonical head. -/
lemma handleNewBlock_txs_of_head (hh hp : Nat) (s : MState) (b : Block)
    (hb : b.hash = hh) :
    (handleNewBlock hh hp s b).txs = filterNewTxs s.txs b := by
  simp [handleNewBlock, newBlockTrace, hb, runActs, applyAct]

/-- Inserting into a nonce-sorted list permutes the element onto the
front. -/
lemma insertByNonce_perm (x : Tx) (l : List Tx) :
    (insertByNonce x l).Perm (x :: l) := by
  induction l with
  | nil => exact List.Perm.refl _
  | cons h t ih =>
    by_cases hc : h.nonce ≤ x.nonce
    · simp only [insertByNonce, if_pos hc]
      exact (List.Perm.cons h ih).trans (List.Perm.swap x h t)
    · simp only [insertByNonce, if_neg hc]
      exact List.Perm.refl _

/-- The nonce sort permutes its input. -/
lemma sortByNonce_perm (l : List Tx) : (sortByNonce l).Perm l := by
  induction l with
  | nil => exact List.Perm.refl _
  | cons h t ih =>
    simp only [sortByNonce]
    exact (insertByNonce_perm h (sortByNonce t)).trans (List.Perm.cons h ih)

/-- Insertion preserves sortedness by nonce. -/
lemma insertByNonce_sorted (x : Tx) (l : List Tx)
    (hl : l.Pairwise fun a b => a.nonce ≤ b.nonce) :
    (insertByNonce x l).Pairwise fun a b => a.nonce ≤ b.nonce := by
  induction l with
  | nil => simp [insertByNonce]
  | cons h t ih =>
    rcases List.pairwise_cons.mp hl with ⟨hh, ht⟩
    by_cases hc : h.nonce ≤ x.nonce
    · simp only [insertByNonce, if_pos hc]
      refine List.pairwise_cons.mpr ⟨?_, ih ht⟩
      intro b hb
      rcases List.mem_cons.mp ((insertByNonce_perm x t).mem_iff.mp hb) with
        hbx | hbt
      · exact hbx ▸ hc
      · exact hh b hbt
    · simp only [insertByNonce, if_neg hc]
      have hxh : x.nonce ≤ h.nonce := le_of_not_le hc
      refine List.pairwise_cons.mpr ⟨?_, hl⟩
      intro b hb
      rcases List.mem_cons.mp hb with hbh | hbt
      · exact hbh ▸ hxh
      · exact le_trans hxh (hh b hbt)

/-- The nonce sort produces a list sorted by nonce. -/
lemma sortByNonce_sorted (l : List Tx) :
    (sortByNonce l).Pairwise fun a b => a.nonce ≤ b.nonce := by
  induction l with
  | nil => simp [sortByNonce]
  | cons h t ih =>
    simp only [sortByNonce]
    exact insertByNonce_sorted h (sortByNonce t) ih

/-- C1: the claim says every reachable state has at most one active search
session.  In the source, the TxPreEvent scan loop (lines 332-338) calls
startMining once per scanned non-matching pooled transaction with no
intervening stop, so after Start with a two-transaction pool, one
NewPendingTransaction event with a fresh hash leaves two mineNewBlock
goroutines running, even granting that stopMining instantly terminates
every prior session. -/
theorem c1_two_concurrent_sessions :
    (handleTxPre (minerStart [T1, T2] 0 0 initState).1 T3).sessions = 2 := by
  decide

/-- C2: the claim says every handler cancels and then waits for the exit
acknowledgment before mutating state.  In the source, stopMining
(lines 361-368) closes powQuitChan and returns at once: the join on
powDone is commented out, so no handler trace ever performs a wait-for-
acknowledgment action, while mutations and restarts follow the cancel
directly. -/
theorem c2_no_join_ack :
    MAct.waitAck ∉ txPreTrace [T1] T3 ∧
    MAct.waitAck ∉ newBlockTrace 7 5 [T1] BHead ∧
    txPreTrace [T1] T3 =
      [MAct.cancel, MAct.start, MAct.undo, MAct.setTxs [T1, T3]] ∧
    newBlockTrace 7 5 [T1] BHead =
      [MAct.cancel, MAct.setTxs [], MAct.start] := by
  decide

/-- C3: the claim says a NewPendingTransaction event performs exactly one
cancel, one mutation and one restart.  In the source the restart count
equals the number of scanned non-matching transactions: with an empty
working set the new transaction is appended but no restart happens at
all (the miner idles, sessions drop to zero), and with a two-element set
the loop restarts twice. -/
theorem c3_restart_count_mismatch :
    countStarts (txPreTrace [] T3) = 0 ∧
    (handleTxPre SRun T3).txs = [T3] ∧
    (handleTxPre SRun T3).sessions = 0 ∧
    countStarts (txPreTrace [T1, T2] T3) = 2 := by
  decide

/-- C4: after a NewBlockEvent whose block is the new canonical head, the
working set is the filter of lines 307-319: no surviving transaction has
a hash occurring in the head block, and every pooled transaction whose
hash does not occur there survives. -/
theorem c4_new_head_tx_filter (hh hp : Nat) (s : MState) (b : Block)
    (hb : b.hash = hh) :
    (∀ t ∈ (handleNewBlock hh hp s b).txs, t.hash ∉ b.txs.map Tx.hash) ∧
    (∀ t ∈ s.txs, t.hash ∉ b.txs.map Tx.hash →
      t ∈ (handleNewBlock hh hp s b).txs) := by
  constructor
  · intro t ht
    rw [handleNewBlock_txs_of_head hh hp s b hb] at ht
    exact ((mem_filterNewTxs s.txs b t).mp ht).2
  · intro t ht hno
    rw [handleNewBlock_txs_of_head hh hp s b hb]
    exact (mem_filterNewTxs s.txs b t).mpr ⟨ht, hno⟩

/-- Witness for C4 at a concrete head block containing T1 and a miner
holding T1 and T2. -/
theorem c4_new_head_tx_filter_witness :
    BHead.hash = 7 ∧
    ((∀ t ∈ (handleNewBlock 7 5 SW BHead).txs, t.hash ∉ BHead.txs.map Tx.hash) ∧
     (∀ t ∈ SW.txs, t.hash ∉ BHead.txs.map Tx.hash →
       t ∈ (handleNewBlock 7 5 SW BHead).txs)) :=
  ⟨rfl, c4_new_head_tx_filter 7 5 SW BHead rfl⟩

/-- C5 counterexample: the claim says uncle insertion deduplicates by hash
and is capped, so UncleSet always holds distinct entries.  Delivering
the same sibling U a second time appends it again (lines 321-324 append
unconditionally), leaving two entries with equal hash. -/
theorem c5_duplicate_uncle :
    (handleNewBlock 7 5 SU U).uncles = [U, U] ∧
    ¬ ((handleNewBlock 7 5 SU U).uncles.map Block.hash).Nodup := by
  decide

/-- C5 amended: a block is appended to UncleSet exactly when it is not the
current canonical head and its parent hash equals the current head's
parent hash; the insertion is a plain append with no deduplication and
no capacity bound. -/
theorem c5_sibling_plain_append (hh hp : Nat) (s : MState) (b : Block) :
    (handleNewBlock hh hp s b).uncles =
      if b.hash ≠ hh ∧ b.prevHash = hp then s.uncles ++ [b] else s.uncles := by
  by_cases h1 : b.hash = hh
  · simp [handleNewBlock, newBlockTrace, runActs, applyAct, h1]
  · by_cases h2 : b.prevHash = hp
    · simp [handleNewBlock, newBlockTrace, runActs, applyAct, h1, h2]
    · simp [handleNewBlock, newBlockTrace, runActs, applyAct, h1, h2]

/-- C6: the template handed to the PoW search is rebuilt from the current
TransactionSet and UncleSet at the start of every round: its uncle list
is the current uncle set, its transactions are the accepted result of
processing the current (sorted) working set, its nonce is unset, and
neither the template nor the whole round outcome depends on the template
left over from any earlier round. -/
theorem c6_fresh_template (c hh : Nat) (s : MState)
    (proc : List Tx → ProcOut) :
    (mineNewBlockPre c hh s proc).blk.uncles = s.uncles ∧
    (mineNewBlockPre c hh s proc).blk.txs =
      (proc (roundProcessorInput s)).accepted ∧
    (mineNewBlockPre c hh s proc).blk.receipts =
      (proc (roundProcessorInput s)).receipts ∧
    (mineNewBlockPre c hh s proc).blk.nonce = none ∧
    (∀ b0, (mineNewBlockPre c hh { s with blk := b0 } proc).blk =
      (mineNewBlockPre c hh s proc).blk) ∧
    (∀ b0 search ok snap,
      mineNewBlock c hh { s with blk := b0 } proc search ok snap =
        mineNewBlock c hh s proc search ok snap) :=
  ⟨rfl, rfl, rfl, rfl, fun _ => rfl, fun _ _ _ _ => rfl⟩

/-- C7 counterexample: the claim says Stop cancels the active session.
Miner.Stop (lines 284-288) only unsubscribes and posts the stopped
notification: from a state with one running session, the session count
after Stop is still nonzero. -/
theorem c7_stop_keeps_session :
    (minerStop SRun).1.sessions ≠ 0 ∧ (minerStop SRun).2 = Note.stopped := by
  decide

/-- C7 amended: Stop unsubscribes from the event mux and publishes the
stopped notification; it leaves the running session count untouched, and
on the miner state it is idempotent: a second Stop changes nothing. -/
theorem c7_stop_unsubscribe_idempotent (s : MState) :
    (minerStop s).1 = { s with subscribed := false } ∧
    (minerStop s).2 = Note.stopped ∧
    (minerStop s).1.sessions = s.sessions ∧
    (minerStop (minerStop s).1).1 = (minerStop s).1 :=
  ⟨rfl, rfl, rfl, rfl⟩

/-- C8 counterexample: the claim says the round orders the working set by
(sender, nonce) with arrival-order tie-breaking.  With T2 = (sender 1,
nonce 2) arriving before T3 = (sender 2, nonce 1), the source's
nonce-only sort yields T3 before T2, while the specified (sender, nonce)
order yields T2 before T3. -/
theorem c8_not_sender_nonce_order :
    roundProcessorInput S8 = [T3, T2] ∧
    specSortSenderNonce S8.txs = [T2, T3] ∧
    roundProcessorInput S8 ≠ specSortSenderNonce S8.txs := by
  decide

/-- C8 amended: the list handed to the state processor is a permutation of
the working set sorted by nonce ascending; the sender is not part of the
sort key. -/
theorem c8_nonce_only_sort (s : MState) :
    (roundProcessorInput s).Perm s.txs ∧
    (roundProcessorInput s).Pairwise fun a b => a.nonce ≤ b.nonce :=
  ⟨sortByNonce_perm s.txs, sortByNonce_sorted s.txs⟩

/-- C9: a reported processing error never aborts the round (the round
outcome is unchanged when the error flag flips), the erroneous subset is
removed from the transaction pool, and the working set afterwards is the
accepted transactions followed by the deferred ones in order. -/
theorem c9_partial_failure_policy (c hh : Nat) (s : MState)
    (proc : List Tx → ProcOut) (e : Bool) :
    (mineNewBlockPre c hh s proc).poolRemoved =
      (proc (roundProcessorInput s)).erroneous ∧
    (mineNewBlockPre c hh s proc).state.txs =
      (proc (roundProcessorInput s)).accepted ++
        (proc (roundProcessorInput s)).unhandled ∧
    mineNewBlockPre c hh s (fun l => { proc l with err := e }) =
      mineNewBlockPre c hh s proc :=
  ⟨rfl, rfl, rfl⟩

/-- C10: a round whose search is cancelled (the search returns none) still
keeps the pre-search mutations: the pool removal of the erroneous set
and the overwrite of the working set with accepted ++ deferred persist,
and nothing is broadcast. -/
theorem c10_cancelled_round_mutations_persist (c hh : Nat) (s : MState)
    (proc : List Tx → ProcOut) (ok : Bool) (snap : List Tx) :
    mineNewBlock c hh s proc (fun _ => none) ok snap =
      { state := (mineNewBlockPre c hh s proc).state
        poolRemoved := (proc (roundProcessorInput s)).erroneous
        broadcasted := none } ∧
    (mineNewBlock c hh s proc (fun _ => none) ok snap).state.txs =
      (proc (roundProcessorInput s)).accepted ++
        (proc (roundProcessorInput s)).unhandled :=
  ⟨rfl, rfl⟩

end EthMiner
